import Mathlib

/-!
Verification of the persistent-volume matching core
(`pkg/volumeclaimbinder/types.go`): an access-mode-signature index over
persistent volumes, ordered by storage capacity, queried through
`ListByAccessModes`, `Find`, `FindByAccessModesAndStorageCapacity` and
`FindBestMatchForClaim`.

The Go code sorts with `sort.Sort` (the standard introsort: insertion sort
below 8 elements, quicksort with median-of-three pivoting, heapsort
fallback) using `matchStorageCapacity` as the `Less` comparator, and then
runs `sort.Search` (first-true binary search) with a match predicate.
Both library routines are embedded here exactly as the Go 1.4 standard
library implements them, operating on lists with index swaps.  All loops
are written with an explicit structural fuel argument; every fuel value
passed at a call site is an upper bound on the trip count of the
corresponding Go loop, so the embedded functions compute exactly what the
Go code computes, and the kernel can evaluate them on concrete inputs.
-/

set_option maxHeartbeats 1600000

namespace VolumeClaimBinder

/-- Access modes of a persistent volume (`api.AccessModeType`). -/
inductive AccessModeType where
  | ReadWriteOnce
  | ReadOnlyMany
  | ReadWriteMany
  deriving DecidableEq, Repr

/-- Modelled from the spec: the capability-signature formatting of
`pkg/volume.GetAccessModesAsString` (that package is not part of this
source tree).  The signature is a deterministic string derived from the
access-mode list: the conventional abbreviation of each mode, joined by
commas.  Two volumes are index-equivalent iff their mode lists produce the
same string. -/
def accessModeAbbrev : AccessModeType → String
  | .ReadWriteOnce => "RWO"
  | .ReadOnlyMany => "ROX"
  | .ReadWriteMany => "RWX"

/-- Modelled from the spec: see `accessModeAbbrev`. -/
def getAccessModesAsString (modes : List AccessModeType) : String :=
  String.intercalate ( ",") (modes.map accessModeAbbrev)

/-- Reference to the claim a volume is bound to (`pv.Spec.ClaimRef`);
only its presence matters to the matching code. -/
structure ObjectReference where
  refName : String
  deriving DecidableEq, Repr

/-- Persistent volume (`api.PersistentVolume`), restricted to the fields
the matching code reads.  `capacity` is the storage entry of the
`Capacity` resource list: `none` models a map with no storage key, and a
missing key yields the zero quantity in Go, hence size 0. -/
structure PersistentVolume where
  name : String
  accessModes : List AccessModeType
  capacity : Option Int
  claimRef : Option ObjectReference
  deriving DecidableEq, Repr

instance : Inhabited PersistentVolume := ⟨⟨"", [], none, none⟩⟩

/-- Persistent volume claim (`api.PersistentVolumeClaim`), restricted to
the fields the matching code reads.  `requestStorage` is the storage entry
of `Spec.Resources.Requests`; `none` models a request map with no storage
key (yielding the zero quantity in Go). -/
structure PersistentVolumeClaim where
  accessModes : List AccessModeType
  requestStorage : Option Int
  deriving DecidableEq, Repr

/-- An object held by the underlying keyed store.  The Go store holds
`interface{}` values; the index function must reject anything that is not
a `*api.PersistentVolume`. -/
inductive StoreObject where
  | pv (v : PersistentVolume)
  | other (descr : String)
  deriving DecidableEq, Repr

/-- Translation of `accessModesIndexFunc`: returns the volume's
access-mode signature, or an error for any non-volume object. -/
def accessModesIndexFunc : StoreObject → Except String String
  | .pv v => .ok (getAccessModesAsString v.accessModes)
  | .other descr => .error ( "object is not a persistent volume: " ++ descr)

/-- Quantity value of the storage capacity entry: a missing map key is the
zero quantity, whose `Value()` is 0. -/
def storageValue (pv : PersistentVolume) : Int :=
  pv.capacity.getD 0

/-- Translation of `matchStorageCapacity`: false for a bound first
argument, otherwise compares the storage sizes with `<=`. -/
def matchStorageCapacity (pvA pvB : PersistentVolume) : Bool :=
  if pvA.claimRef.isSome then false
  else decide (storageValue pvA ≤ storageValue pvB)

/-- Translation of `filterBoundVolumes`: false as soon as either side is
bound, otherwise defers to `matchStorageCapacity`. -/
def filterBoundVolumes (compareThis toThis : PersistentVolume) : Bool :=
  if compareThis.claimRef.isSome || toThis.claimRef.isSome then false
  else matchStorageCapacity compareThis toThis

/-- Comparator of the `byCapacity` sort adapter: `Less i j` is
`matchStorageCapacity` of the elements at `i` and `j`. -/
def byCapacityLess (pvA pvB : PersistentVolume) : Bool :=
  matchStorageCapacity pvA pvB

/-! ### The Go `sort` package

`data.Swap(i, j)` on a slice, embedded as `swapL`; out-of-range indices
(never produced by the algorithms below) leave the list unchanged.
`lessIdx` is `data.Less(i, j)`. -/

/-- Swap of two positions of a list. -/
def swapL (l : List α) (i j : Nat) : List α :=
  match l[i]?, l[j]? with
  | some a, some b => (l.set i b).set j a
  | _, _ => l

/-- Comparator applied at two positions, i.e. `data.Less(i, j)`. -/
def lessIdx (less : α → α → Bool) (l : List α) (i j : Nat) : Bool :=
  match l[i]?, l[j]? with
  | some a, some b => less a b
  | _, _ => false

/-- Inner loop of `insertionSort`: starting at position `j`, move the
element left while `j > a && Less(j, j-1)`.  The Go loop variable is the
recursion argument itself, so the recursion is structural. -/
def insertionSortInner (less : α → α → Bool) (a : Nat) : List α → Nat → List α
  | l, 0 => l
  | l, j+1 =>
    if a < j + 1 ∧ lessIdx less l (j+1) j = true then
      insertionSortInner less a (swapL l (j+1) j) j
    else l

/-- Outer loop of `insertionSort`: `for i := a+1; i < b; i++`.  The fuel
passed by `insertionSortGo` is `b`, an upper bound on the trip count. -/
def insertionSortOuter (less : α → α → Bool) (a b : Nat) : Nat → List α → Nat → List α
  | 0, l, _ => l
  | fuel+1, l, i =>
    if i < b then insertionSortOuter less a b fuel (insertionSortInner less a l i) (i+1)
    else l

/-- Translation of the Go `insertionSort(data, a, b)`. -/
def insertionSortGo (less : α → α → Bool) (l : List α) (a b : Nat) : List α :=
  insertionSortOuter less a b b l (a+1)

/-- Translation of the Go `siftDown(data, lo, hi, first)` loop; `root`
starts at `lo` and strictly increases below `hi`, so fuel `hi` bounds the
trip count. -/
def siftDownGo (less : α → α → Bool) (first : Nat) : Nat → List α → Nat → Nat → List α
  | 0, l, _, _ => l
  | fuel+1, l, root, hi =>
    let child1 := 2*root + 1
    if child1 < hi then
      let child :=
        if child1 + 1 < hi ∧ lessIdx less l (first+child1) (first+child1+1) = true then child1 + 1
        else child1
      if lessIdx less l (first+root) (first+child) = true then
        siftDownGo less first fuel (swapL l (first+root) (first+child)) child hi
      else l
    else l

/-- Heap-building loop of `heapSort`: `for i := (hi-1)/2; i >= 0; i--`,
entered with the countdown argument `(hi-1)/2 + 1`. -/
def heapBuildGo (less : α → α → Bool) (first hi : Nat) : Nat → List α → List α
  | 0, l => l
  | k+1, l => heapBuildGo less first hi k (siftDownGo less first hi l k hi)

/-- Pop loop of `heapSort`: `for i := hi-1; i >= 0; i--` swaps the top to
position `i` and sifts down over `[0, i)`; entered with countdown `hi`. -/
def heapPopGo (less : α → α → Bool) (first : Nat) : Nat → List α → List α
  | 0, l => l
  | k+1, l => heapPopGo less first k (siftDownGo less first k (swapL l first (first + k)) 0 k)

/-- Translation of the Go `heapSort(data, a, b)`. -/
def heapSortGo (less : α → α → Bool) (l : List α) (a b : Nat) : List α :=
  heapPopGo less a (b - a) (heapBuildGo less a (b - a) (((b - a) - 1)/2 + 1) l)

/-- Translation of the Go `medianOfThree(data, a, b, c)` (in its body
`m0 := b`, `m1 := a`, `m2 := c`): a three-element bubble sort by
conditional swaps. -/
def medianOfThreeGo (less : α → α → Bool) (l : List α) (a b c : Nat) : List α :=
  let l1 := if lessIdx less l a b = true then swapL l a b else l
  let l2 := if lessIdx less l1 c a = true then swapL l1 c a else l1
  if lessIdx less l2 a b = true then swapL l2 a b else l2

/-- Translation of the Go `swapRange(data, a, b, n)`. -/
def swapRangeGo : List α → Nat → Nat → Nat → List α
  | l, _, _, 0 => l
  | l, a, b, n+1 => swapRangeGo (swapL l a b) (a+1) (b+1) n

/-- Left scan of `doPivot`: advance `b` over elements `< pivot`, moving
elements `= pivot` to the left block at `a`.  `b` strictly increases below
`c`, so fuel `c` bounds the trip count. -/
def dpScanLeftGo (less : α → α → Bool) (pivot c : Nat) : Nat → List α → Nat → Nat → List α × Nat × Nat
  | 0, l, a, b => (l, a, b)
  | fuel+1, l, a, b =>
    if b < c then
      if lessIdx less l b pivot = true then dpScanLeftGo less pivot c fuel l a (b+1)
      else if lessIdx less l pivot b = false then dpScanLeftGo less pivot c fuel (swapL l a b) (a+1) (b+1)
      else (l, a, b)
    else (l, a, b)

/-- Right scan of `doPivot`: retreat `c` over elements `> pivot`, moving
elements `= pivot` to the right block at `d`.  `c` strictly decreases
above `b`, so fuel `c` bounds the trip count. -/
def dpScanRightGo (less : α → α → Bool) (pivot b : Nat) : Nat → List α → Nat → Nat → List α × Nat × Nat
  | 0, l, c, d => (l, c, d)
  | fuel+1, l, c, d =>
    if b < c then
      if lessIdx less l pivot (c-1) = true then dpScanRightGo less pivot b fuel l (c-1) d
      else if lessIdx less l (c-1) pivot = false then
        dpScanRightGo less pivot b fuel (swapL l (c-1) (d-1)) (c-1) (d-1)
      else (l, c, d)
    else (l, c, d)

/-- Outer partition loop of `doPivot`: run both scans, then either stop
(`b >= c`) or swap the out-of-place pair and continue.  Each iteration
shrinks `c - b` by two, so the fuel passed by `doPivotGo` (`hi + 1`)
bounds the trip count. -/
def dpLoopGo (less : α → α → Bool) (pivot : Nat) : Nat → List α → Nat → Nat → Nat → Nat → List α × Nat × Nat × Nat × Nat
  | 0, l, a, b, c, d => (l, a, b, c, d)
  | fuel+1, l, a, b, c, d =>
    match dpScanLeftGo less pivot c c l a b with
    | (l1, a1, b1) =>
      match dpScanRightGo less pivot b1 c l1 c d with
      | (l2, c2, d2) =>
        if b1 < c2 then dpLoopGo less pivot fuel (swapL l2 b1 (c2-1)) a1 (b1+1) (c2-1) d2
        else (l2, a1, b1, c2, d2)

/-- Final block swaps of `doPivot`: move the two "equal to pivot" blocks
into the middle and return the partition boundaries. -/
def dpFinish (lo hi : Nat) : List α × Nat × Nat × Nat × Nat → List α × Nat × Nat
  | (l2, a, b, c, d) =>
    let n1 := min (b - a) (a - lo)
    let l3 := swapRangeGo l2 lo (b - n1) n1
    let n2 := min (hi - d) (d - c)
    let l4 := swapRangeGo l3 c (hi - n2) n2
    (l4, lo + (b - a), hi - (d - c))

/-- Translation of the Go 1.4 `doPivot(data, lo, hi)`: median-of-three
pivot selection (Tukey ninther over 40 elements), three-way partition,
and the two final block swaps; returns the list with the two partition
boundaries. -/
def doPivotGo (less : α → α → Bool) (l : List α) (lo hi : Nat) : List α × Nat × Nat :=
  let m := lo + (hi - lo)/2
  let l0 :=
    if 40 < hi - lo then
      let s := (hi - lo)/8
      let la := medianOfThreeGo less l lo (lo+s) (lo+2*s)
      let lb := medianOfThreeGo less la m (m-s) (m+s)
      medianOfThreeGo less lb (hi-1) (hi-1-s) (hi-1-2*s)
    else l
  let l1 := medianOfThreeGo less l0 lo m (hi-1)
  dpFinish lo hi (dpLoopGo less lo (hi+1) l1 (lo+1) (lo+1) hi hi)

/-- Translation of the Go `quickSort(data, a, b, maxDepth)`: ranges over 7
elements are partitioned (or heap-sorted once the depth budget is spent),
smaller ranges fall to insertion sort.  The `for b-a > 7` loop is encoded
as the tail recursive call on the remaining half; the fuel passed by
`sortGo` exceeds the maximal chain of calls (bounded by the depth
budget). -/
def quickSortGo (less : α → α → Bool) : Nat → List α → Nat → Nat → Nat → List α
  | 0, l, _, _, _ => l
  | fuel+1, l, a, b, maxDepth =>
    if 7 < b - a then
      if maxDepth = 0 then heapSortGo less l a b
      else
        match doPivotGo less l a b with
        | (l1, mlo, mhi) =>
          if mlo - a < b - mhi then
            quickSortGo less fuel (quickSortGo less fuel l1 a mlo (maxDepth - 1)) mhi b (maxDepth - 1)
          else
            quickSortGo less fuel (quickSortGo less fuel l1 mhi b (maxDepth - 1)) a mlo (maxDepth - 1)
    else if 1 < b - a then insertionSortGo less l a b
    else l

/-- Depth budget loop of `sort.Sort`: `for i := n; i > 0; i >>= 1`
counts the halvings of `n`; fuel `n` bounds the trip count. -/
def depthLoopGo : Nat → Nat → Nat
  | 0, _ => 0
  | fuel+1, i => if 0 < i then depthLoopGo fuel (i / 2) + 1 else 0

/-- Depth budget of `sort.Sort`: `2 * ceil(lg(n+1))`. -/
def maxDepthGo (n : Nat) : Nat :=
  2 * depthLoopGo n n

/-- Translation of `sort.Sort(data)` over a list. -/
def sortGo (less : α → α → Bool) (l : List α) : List α :=
  quickSortGo less (maxDepthGo l.length + 2) l 0 l.length (maxDepthGo l.length)

/-- Binary-search loop of `sort.Search`: the interval `[i, j)` at least
halves each iteration, so fuel `n` (passed by `sortSearchGo`) bounds the
trip count. -/
def searchLoopGo (f : Nat → Bool) : Nat → Nat → Nat → Nat
  | 0, i, _ => i
  | fuel+1, i, j =>
    if i < j then
      let h := i + (j - i)/2
      if f h = true then searchLoopGo f fuel i h else searchLoopGo f fuel (h+1) j
    else i

/-- Translation of `sort.Search(n, f)`. -/
def sortSearchGo (n : Nat) (f : Nat → Bool) : Nat :=
  searchLoopGo f n 0 n

/-! ### The index and its query operations -/

/-- Probe volume built by `ListByAccessModes`: only the access modes are
set. -/
def probeVolume (modes : List AccessModeType) : PersistentVolume :=
  { name := "", accessModes := modes, capacity := none, claimRef := none }

/-- Modelled from the spec: the bucket lookup of the external keyed store
(`pkg/client/cache`, not part of this source tree).  It walks the stored
objects in store order, keeps those whose derived signature equals the
probe key (these are necessarily volumes, matching the type assertion in
`ListByAccessModes`), and propagates the index function's failure on any
malformed entry. -/
def collectMatching (key : String) : List StoreObject → Except String (List PersistentVolume)
  | [] => .ok []
  | StoreObject.pv v :: rest =>
    (collectMatching key rest).map fun tail =>
      if getAccessModesAsString v.accessModes = key then v :: tail else tail
  | StoreObject.other descr :: _ => .error ( "object is not a persistent volume: " ++ descr)

/-- Modelled from the spec: `pvIndex.Index("accessmodes", probe)` of the
external keyed store — derive the probe's key with the registered index
function, then list the bucket. -/
def indexStore (store : List StoreObject) (probe : StoreObject) : Except String (List PersistentVolume) :=
  match accessModesIndexFunc probe with
  | .error e => .error e
  | .ok key => collectMatching key store

/-- Translation of `ListByAccessModes`: index lookup by a probe volume
carrying the requested modes, then `sort.Sort(byCapacity{volumes})`. -/
def ListByAccessModes (store : List StoreObject) (modes : List AccessModeType) :
    Except String (List PersistentVolume) :=
  match indexStore store (StoreObject.pv (probeVolume modes)) with
  | .error e => .error e
  | .ok objs => .ok (sortGo byCapacityLess objs)

/-- Translation of `Find`: list the probe's partition, `sort.Search` for
the first index satisfying `matchPredicate(pv, volumes[i])`, and return
`volumes[i]` when the index is in range, nil otherwise. -/
def Find (store : List StoreObject) (pv : PersistentVolume)
    (matchPredicate : PersistentVolume → PersistentVolume → Bool) :
    Except String (Option PersistentVolume) :=
  match ListByAccessModes store pv.accessModes with
  | .error e => .error e
  | .ok volumes =>
    let i := sortSearchGo volumes.length (fun k => matchPredicate pv (volumes.getD k default))
    if h : i < volumes.length then .ok (some volumes[i]) else .ok none

/-- Translation of `FindByAccessModesAndStorageCapacity`: build a probe
volume with the modes and the storage quantity, find with
`filterBoundVolumes`. -/
def FindByAccessModesAndStorageCapacity (store : List StoreObject)
    (modes : List AccessModeType) (qty : Int) : Except String (Option PersistentVolume) :=
  Find store { name := "", accessModes := modes, capacity := some qty, claimRef := none }
    filterBoundVolumes

/-- Translation of `FindBestMatchForClaim`: delegate with the claim's
modes and requested storage quantity (a missing request entry is the zero
quantity). -/
def FindBestMatchForClaim (store : List StoreObject) (claim : PersistentVolumeClaim) :
    Except String (Option PersistentVolume) :=
  FindByAccessModesAndStorageCapacity store claim.accessModes (claim.requestStorage.getD 0)

/-! ### State-passing forms of the queries

The Go methods receive the index by pointer but only read it:
`ListByAccessModes` copies the bucket into a fresh slice before sorting
(`volumes := make(...)`), so no query writes the receiver.  The faithful
state-passing translation therefore returns the store it received. -/

/-- State-passing `ListByAccessModes`. -/
def ListByAccessModesOp (store : List StoreObject) (modes : List AccessModeType) :
    Except String (List PersistentVolume) × List StoreObject :=
  (ListByAccessModes store modes, store)

/-- State-passing `Find`. -/
def FindOp (store : List StoreObject) (pv : PersistentVolume)
    (matchPredicate : PersistentVolume → PersistentVolume → Bool) :
    Except String (Option PersistentVolume) × List StoreObject :=
  (Find store pv matchPredicate, store)

/-- State-passing `FindByAccessModesAndStorageCapacity`. -/
def FindByAccessModesAndStorageCapacityOp (store : List StoreObject)
    (modes : List AccessModeType) (qty : Int) :
    Except String (Option PersistentVolume) × List StoreObject :=
  (FindByAccessModesAndStorageCapacity store modes qty, store)

/-- State-passing `FindBestMatchForClaim`. -/
def FindBestMatchForClaimOp (store : List StoreObject) (claim : PersistentVolumeClaim) :
    Except String (Option PersistentVolume) × List StoreObject :=
  (FindBestMatchForClaim store claim, store)

/-! ### Concrete instances used by the examples below -/

/-- The single-mode capability set of the spec's scenarios. -/
def rwoModes : List AccessModeType := [AccessModeType.ReadWriteOnce]

/-- Unbound volume, capacity 5. -/
def vU5 : PersistentVolume := ⟨"u5", rwoModes, some 5, none⟩

/-- Unbound volume, capacity 10. -/
def vU10 : PersistentVolume := ⟨"u10", rwoModes, some 10, none⟩

/-- Bound volume, capacity 5. -/
def vB5 : PersistentVolume := ⟨"b5", rwoModes, some 5, some ⟨"claimA"⟩⟩

/-- Bound volume, capacity 0. -/
def vB0 : PersistentVolume := ⟨"b0", rwoModes, some 0, some ⟨"claimB"⟩⟩

/-- Bound volume, capacity 1. -/
def vB1 : PersistentVolume := ⟨"b1", rwoModes, some 1, some ⟨"claimC"⟩⟩

/-- Unbound volume, capacity 5, distinct from `vU5` by name. -/
def vE5 : PersistentVolume := ⟨"e5", rwoModes, some 5, none⟩

/-- Unbound volume with a negative capacity quantity. -/
def vNeg : PersistentVolume := ⟨"neg", rwoModes, some (-3), none⟩

/-- Unbound volume whose capacity map has no storage entry. -/
def vNoCap : PersistentVolume := ⟨"nocap", rwoModes, none, none⟩

/-- Unbound volume supporting the superset `{ReadWriteOnce, ReadOnlyMany}`. -/
def vSuperset : PersistentVolume :=
  ⟨"super", [AccessModeType.ReadWriteOnce, AccessModeType.ReadOnlyMany], some 5, none⟩

/-! ### Permutation lemmas: every step of the Go sort is an index swap -/

theorem cons_set_perm {α : Type _} :
    ∀ (t : List α) (j : Nat) (b x : α), t[j]? = some b →
      List.Perm (b :: t.set j x) (x :: t) := by
  intro t
  induction t with
  | nil => intro j b x h; simp at h
  | cons y s ih =>
    intro j b x h
    cases j with
    | zero =>
      simp at h
      subst h
      simp only [List.set_cons_zero]
      exact List.Perm.swap x y s
    | succ j =>
      simp only [List.getElem?_cons_succ] at h
      simp only [List.set_cons_succ]
      exact ((List.Perm.swap y b _).trans ((ih j b x h).cons y)).trans (List.Perm.swap x y s)

theorem set_set_perm {α : Type _} :
    ∀ (l : List α) (i j : Nat) (a b : α), l[i]? = some a → l[j]? = some b →
      List.Perm ((l.set i b).set j a) l := by
  intro l
  induction l with
  | nil => intro i j a b h; simp at h
  | cons x t ih =>
    intro i j a b ha hb
    cases i with
    | zero =>
      simp at ha
      subst ha
      cases j with
      | zero =>
        simp at hb
        simp
      | succ j =>
        simp only [List.getElem?_cons_succ] at hb
        simp only [List.set_cons_zero, List.set_cons_succ]
        exact cons_set_perm t j b x hb
    | succ i =>
      simp only [List.getElem?_cons_succ] at ha
      cases j with
      | zero =>
        simp at hb
        subst hb
        simp only [List.set_cons_succ, List.set_cons_zero]
        exact cons_set_perm t i a x ha
      | succ j =>
        simp only [List.getElem?_cons_succ] at hb
        simp only [List.set_cons_succ]
        exact List.Perm.cons x (ih i j a b ha hb)

theorem swapL_perm {α : Type _} (l : List α) (i j : Nat) :
    List.Perm (swapL l i j) l := by
  unfold swapL
  cases hi : l[i]? with
  | none => exact List.Perm.refl l
  | some a =>
    cases hj : l[j]? with
    | none => exact List.Perm.refl l
    | some b => exact set_set_perm l i j a b hi hj

theorem condSwap_perm {α : Type _} (less : α → α → Bool) (l : List α) (i j : Nat) :
    List.Perm (if lessIdx less l i j = true then swapL l i j else l) l := by
  split
  · exact swapL_perm l i j
  · exact List.Perm.refl l

theorem insertionSortInner_perm {α : Type _} (less : α → α → Bool) (a : Nat) :
    ∀ (j : Nat) (l : List α), List.Perm (insertionSortInner less a l j) l := by
  intro j
  induction j with
  | zero => intro l; exact List.Perm.refl l
  | succ j ih =>
    intro l
    rw [insertionSortInner]
    split
    · exact (ih _).trans (swapL_perm l (j+1) j)
    · exact List.Perm.refl l

theorem insertionSortOuter_perm {α : Type _} (less : α → α → Bool) (a b : Nat) :
    ∀ (fuel : Nat) (l : List α) (i : Nat), List.Perm (insertionSortOuter less a b fuel l i) l := by
  intro fuel
  induction fuel with
  | zero => intro l i; exact List.Perm.refl l
  | succ fuel ih =>
    intro l i
    rw [insertionSortOuter]
    split
    · exact (ih _ _).trans (insertionSortInner_perm less a i l)
    · exact List.Perm.refl l

theorem insertionSortGo_perm {α : Type _} (less : α → α → Bool) (l : List α) (a b : Nat) :
    List.Perm (insertionSortGo less l a b) l :=
  insertionSortOuter_perm less a b b l (a+1)

theorem siftDownGo_perm {α : Type _} (less : α → α → Bool) (first : Nat) :
    ∀ (fuel : Nat) (l : List α) (root hi : Nat), List.Perm (siftDownGo less first fuel l root hi) l := by
  intro fuel
  induction fuel with
  | zero => intro l root hi; exact List.Perm.refl l
  | succ fuel ih =>
    intro l root hi
    simp only [siftDownGo]
    split
    · split
      · split
        · exact (ih _ _ _).trans (swapL_perm _ _ _)
        · exact List.Perm.refl l
      · split
        · exact (ih _ _ _).trans (swapL_perm _ _ _)
        · exact List.Perm.refl l
    · exact List.Perm.refl l

theorem heapBuildGo_perm {α : Type _} (less : α → α → Bool) (first hi : Nat) :
    ∀ (k : Nat) (l : List α), List.Perm (heapBuildGo less first hi k l) l := by
  intro k
  induction k with
  | zero => intro l; exact List.Perm.refl l
  | succ k ih =>
    intro l
    exact (ih _).trans (siftDownGo_perm less first hi l k hi)

theorem heapPopGo_perm {α : Type _} (less : α → α → Bool) (first : Nat) :
    ∀ (k : Nat) (l : List α), List.Perm (heapPopGo less first k l) l := by
  intro k
  induction k with
  | zero => intro l; exact List.Perm.refl l
  | succ k ih =>
    intro l
    exact (ih _).trans ((siftDownGo_perm less first k _ 0 k).trans (swapL_perm l first (first + k)))

theorem heapSortGo_perm {α : Type _} (less : α → α → Bool) (l : List α) (a b : Nat) :
    List.Perm (heapSortGo less l a b) l :=
  (heapPopGo_perm less a (b - a) _).trans (heapBuildGo_perm less a (b - a) _ l)

theorem medianOfThreeGo_perm {α : Type _} (less : α → α → Bool) (l : List α) (a b c : Nat) :
    List.Perm (medianOfThreeGo less l a b c) l := by
  unfold medianOfThreeGo
  exact (condSwap_perm less _ a b).trans ((condSwap_perm less _ c a).trans (condSwap_perm less l a b))

theorem swapRangeGo_perm {α : Type _} :
    ∀ (n : Nat) (l : List α) (a b : Nat), List.Perm (swapRangeGo l a b n) l := by
  intro n
  induction n with
  | zero => intro l a b; exact List.Perm.refl l
  | succ n ih =>
    intro l a b
    exact (ih _ _ _).trans (swapL_perm l a b)

theorem dpScanLeftGo_perm {α : Type _} (less : α → α → Bool) (pivot c : Nat) :
    ∀ (fuel : Nat) (l : List α) (a b : Nat), List.Perm (dpScanLeftGo less pivot c fuel l a b).1 l := by
  intro fuel
  induction fuel with
  | zero => intro l a b; exact List.Perm.refl l
  | succ fuel ih =>
    intro l a b
    rw [dpScanLeftGo]
    split
    · split
      · exact ih _ _ _
      · split
        · exact (ih _ _ _).trans (swapL_perm l a b)
        · exact List.Perm.refl l
    · exact List.Perm.refl l

theorem dpScanRightGo_perm {α : Type _} (less : α → α → Bool) (pivot b : Nat) :
    ∀ (fuel : Nat) (l : List α) (c d : Nat), List.Perm (dpScanRightGo less pivot b fuel l c d).1 l := by
  intro fuel
  induction fuel with
  | zero => intro l c d; exact List.Perm.refl l
  | succ fuel ih =>
    intro l c d
    rw [dpScanRightGo]
    split
    · split
      · exact ih _ _ _
      · split
        · exact (ih _ _ _).trans (swapL_perm l (c-1) (d-1))
        · exact List.Perm.refl l
    · exact List.Perm.refl l

theorem dpLoopGo_perm {α : Type _} (less : α → α → Bool) (pivot : Nat) :
    ∀ (fuel : Nat) (l : List α) (a b c d : Nat), List.Perm (dpLoopGo less pivot fuel l a b c d).1 l := by
  intro fuel
  induction fuel with
  | zero => intro l a b c d; exact List.Perm.refl l
  | succ fuel ih =>
    intro l a b c d
    rw [dpLoopGo]
    rcases hsl : dpScanLeftGo less pivot c c l a b with ⟨l1, a1, b1⟩
    dsimp only
    rcases hsr : dpScanRightGo less pivot b1 c l1 c d with ⟨l2, c2, d2⟩
    dsimp only
    have h1 : List.Perm l1 l := by
      have hp := dpScanLeftGo_perm less pivot c c l a b
      rw [hsl] at hp
      exact hp
    have h2 : List.Perm l2 l1 := by
      have hp := dpScanRightGo_perm less pivot b1 c l1 c d
      rw [hsr] at hp
      exact hp
    split
    · exact (ih _ _ _ _ _).trans ((swapL_perm l2 b1 (c2-1)).trans (h2.trans h1))
    · exact h2.trans h1

theorem dpFinish_perm {α : Type _} (lo hi : Nat) (r : List α × Nat × Nat × Nat × Nat) :
    List.Perm (dpFinish lo hi r).1 r.1 := by
  rcases r with ⟨l2, a, b, c, d⟩
  simp only [dpFinish]
  exact (swapRangeGo_perm _ _ _ _).trans (swapRangeGo_perm _ _ _ _)

theorem doPivotGo_perm {α : Type _} (less : α → α → Bool) (l : List α) (lo hi : Nat) :
    List.Perm (doPivotGo less l lo hi).1 l := by
  unfold doPivotGo
  refine (dpFinish_perm lo hi _).trans ((dpLoopGo_perm less lo (hi+1) _ _ _ _ _).trans
    ((medianOfThreeGo_perm less _ lo _ (hi-1)).trans ?_))
  split
  · exact (medianOfThreeGo_perm less _ _ _ _).trans
      ((medianOfThreeGo_perm less _ _ _ _).trans (medianOfThreeGo_perm less l _ _ _))
  · exact List.Perm.refl l

theorem quickSortGo_perm {α : Type _} (less : α → α → Bool) :
    ∀ (fuel : Nat) (l : List α) (a b maxDepth : Nat),
      List.Perm (quickSortGo less fuel l a b maxDepth) l := by
  intro fuel
  induction fuel with
  | zero => intro l a b maxDepth; exact List.Perm.refl l
  | succ fuel ih =>
    intro l a b maxDepth
    rw [quickSortGo]
    split
    · split
      · exact heapSortGo_perm less l a b
      · rcases hdp : doPivotGo less l a b with ⟨l1, mlo, mhi⟩
        dsimp only
        have h1 : List.Perm l1 l := by
          have hp := doPivotGo_perm less l a b
          rw [hdp] at hp
          exact hp
        split
        · exact (ih _ _ _ _).trans ((ih _ _ _ _).trans h1)
        · exact (ih _ _ _ _).trans ((ih _ _ _ _).trans h1)
    · split
      · exact insertionSortGo_perm less l a b
      · exact List.Perm.refl l

theorem sortGo_perm {α : Type _} (less : α → α → Bool) (l : List α) :
    List.Perm (sortGo less l) l :=
  quickSortGo_perm less _ l 0 l.length (maxDepthGo l.length)

theorem sortGo_mem {α : Type _} (less : α → α → Bool) (l : List α) (v : α) :
    v ∈ sortGo less l ↔ v ∈ l :=
  (sortGo_perm less l).mem_iff

theorem sortGo_length {α : Type _} (less : α → α → Bool) (l : List α) :
    (sortGo less l).length = l.length :=
  (sortGo_perm less l).length_eq

/-! ### Properties of the binary search `sort.Search` -/

theorem searchLoopGo_spec (f : Nat → Bool) :
    ∀ (fuel i j : Nat), i ≤ j → j - i ≤ fuel →
      searchLoopGo f fuel i j = j ∨
        (searchLoopGo f fuel i j < j ∧ f (searchLoopGo f fuel i j) = true) := by
  intro fuel
  induction fuel with
  | zero =>
    intro i j hij hf
    left
    simp only [searchLoopGo]
    omega
  | succ fuel ih =>
    intro i j hij hf
    simp only [searchLoopGo]
    split
    · rename_i hlt
      split
      · rename_i hfh
        rcases ih i (i + (j - i)/2) (by omega) (by omega) with hs | ⟨hs1, hs2⟩
        · right
          rw [hs]
          exact ⟨by omega, hfh⟩
        · right
          exact ⟨by omega, hs2⟩
      · rcases ih (i + (j - i)/2 + 1) j (by omega) (by omega) with hs | ⟨hs1, hs2⟩
        · left
          exact hs
        · right
          exact ⟨hs1, hs2⟩
    · left
      omega

theorem searchLoopGo_all_true (f : Nat → Bool) :
    ∀ (fuel i j : Nat), i ≤ j → j - i ≤ fuel → (∀ k, k < j → f k = true) →
      searchLoopGo f fuel i j = i := by
  intro fuel
  induction fuel with
  | zero => intro i j _ _ _; rfl
  | succ fuel ih =>
    intro i j hij hf hall
    simp only [searchLoopGo]
    split
    · rename_i hlt
      rw [if_pos (hall _ (by omega))]
      exact ih i _ (by omega) (by omega) fun k hk => hall k (by omega)
    · rfl

theorem sortSearchGo_spec (n : Nat) (f : Nat → Bool) :
    sortSearchGo n f = n ∨ (sortSearchGo n f < n ∧ f (sortSearchGo n f) = true) :=
  searchLoopGo_spec f n 0 n (Nat.zero_le n) (by omega)

theorem sortSearchGo_all_true (n : Nat) (f : Nat → Bool) (hall : ∀ k, k < n → f k = true) :
    sortSearchGo n f = 0 :=
  searchLoopGo_all_true f n 0 n (Nat.zero_le n) (by omega) hall

/-! ### Properties of the index bucket lookup -/

theorem collectMatching_mem_sig (key : String) :
    ∀ (store : List StoreObject) (l : List PersistentVolume),
      collectMatching key store = .ok l →
        ∀ v ∈ l, getAccessModesAsString v.accessModes = key := by
  intro store
  induction store with
  | nil =>
    intro l hok v hv
    simp only [collectMatching] at hok
    injection hok with h
    subst h
    simp at hv
  | cons o rest ih =>
    intro l hok v hv
    cases o with
    | pv w =>
      simp only [collectMatching] at hok
      cases hcr : collectMatching key rest with
      | error e =>
        rw [hcr] at hok
        simp only [Except.map] at hok
        exact Except.noConfusion hok
      | ok tail =>
        rw [hcr] at hok
        simp only [Except.map] at hok
        injection hok with h
        subst h
        split at hv
        · rename_i hcond
          rcases List.mem_cons.mp hv with hv | hv
          · subst hv
            exact hcond
          · exact ih tail hcr v hv
        · exact ih tail hcr v hv
    | other descr =>
      simp only [collectMatching] at hok
      exact Except.noConfusion hok

theorem collectMatching_complete (key : String) :
    ∀ (store : List StoreObject) (l : List PersistentVolume),
      collectMatching key store = .ok l →
        ∀ v : PersistentVolume, StoreObject.pv v ∈ store →
          getAccessModesAsString v.accessModes = key → v ∈ l := by
  intro store
  induction store with
  | nil =>
    intro l _ v hmem _
    simp at hmem
  | cons o rest ih =>
    intro l hok v hmem hsig
    cases o with
    | pv w =>
      simp only [collectMatching] at hok
      cases hcr : collectMatching key rest with
      | error e =>
        rw [hcr] at hok
        simp only [Except.map] at hok
        exact Except.noConfusion hok
      | ok tail =>
        rw [hcr] at hok
        simp only [Except.map] at hok
        injection hok with h
        subst h
        rcases List.mem_cons.mp hmem with hm | hm
        · have hvw : v = w := by simpa using hm
          subst hvw
          rw [if_pos hsig]
          exact List.mem_cons_self v tail
        · have hvt : v ∈ tail := ih tail hcr v hm hsig
          split
          · exact List.mem_cons_of_mem w hvt
          · exact hvt
    | other descr =>
      simp only [collectMatching] at hok
      exact Except.noConfusion hok

/-! ### Characterization of `Find` results -/

theorem ListByAccessModes_ok_iff (store : List StoreObject) (modes : List AccessModeType)
    (l : List PersistentVolume) :
    ListByAccessModes store modes = .ok l ↔
      ∃ cands, collectMatching (getAccessModesAsString modes) store = .ok cands ∧
        l = sortGo byCapacityLess cands := by
  unfold ListByAccessModes indexStore accessModesIndexFunc probeVolume
  dsimp only
  constructor
  · intro h
    cases hcr : collectMatching (getAccessModesAsString modes) store with
    | error e =>
      rw [hcr] at h
      exact Except.noConfusion h
    | ok cands =>
      rw [hcr] at h
      injection h with h1
      exact ⟨cands, rfl, h1.symm⟩
  · rintro ⟨cands, hcr, rfl⟩
    rw [hcr]

theorem Find_some_mem (store : List StoreObject) (pv : PersistentVolume)
    (pred : PersistentVolume → PersistentVolume → Bool) (v : PersistentVolume)
    (h : Find store pv pred = .ok (some v)) :
    ∃ l, ListByAccessModes store pv.accessModes = .ok l ∧ v ∈ l ∧ pred pv v = true := by
  unfold Find at h
  cases hl : ListByAccessModes store pv.accessModes with
  | error e =>
    rw [hl] at h
    exact Except.noConfusion h
  | ok volumes =>
    rw [hl] at h
    dsimp only at h
    rcases sortSearchGo_spec volumes.length
        (fun k => pred pv (volumes.getD k default)) with hs | ⟨hs1, hs2⟩
    · rw [dif_neg (by omega)] at h
      injection h with h1
      exact Option.noConfusion h1
    · rw [dif_pos hs1] at h
      injection h with h1
      injection h1 with h2
      refine ⟨volumes, rfl, ?_, ?_⟩
      · rw [← h2]
        exact List.getElem_mem hs1
      · have hg : volumes.getD (sortSearchGo volumes.length
            (fun k => pred pv (volumes.getD k default))) default =
            volumes[sortSearchGo volumes.length (fun k => pred pv (volumes.getD k default))] := by
          rw [List.getD_eq_getElem?_getD, List.getElem?_eq_getElem hs1, Option.getD_some]
        rw [← h2, ← hg]
        exact hs2

theorem getD_mem {α : Type _} [Inhabited α] (l : List α) (k : Nat) (hk : k < l.length) :
    l.getD k default ∈ l := by
  rw [List.getD_eq_getElem?_getD, List.getElem?_eq_getElem hk, Option.getD_some]
  exact List.getElem_mem hk

theorem filterBoundVolumes_true_unbound (u v : PersistentVolume)
    (h : filterBoundVolumes u v = true) : u.claimRef = none ∧ v.claimRef = none := by
  unfold filterBoundVolumes at h
  cases hu : u.claimRef with
  | none =>
    cases hv : v.claimRef with
    | none => exact ⟨rfl, rfl⟩
    | some r =>
      rw [hu, hv] at h
      simp at h
  | some r =>
    rw [hu] at h
    simp at h

/-! ### The claims -/

/-- C2: for every index state and request, `FindByAccessModesAndStorageCapacity`
and `FindBestMatchForClaim` never return a volume whose claim reference is
set: whenever either returns a non-nil volume, that volume's `ClaimRef` is
nil. -/
theorem C2_bound_volumes_never_returned (store : List StoreObject) :
    (∀ (modes : List AccessModeType) (qty : Int) (v : PersistentVolume),
        FindByAccessModesAndStorageCapacity store modes qty = .ok (some v) → v.claimRef = none) ∧
    (∀ (claim : PersistentVolumeClaim) (v : PersistentVolume),
        FindBestMatchForClaim store claim = .ok (some v) → v.claimRef = none) := by
  have key : ∀ (modes : List AccessModeType) (qty : Int) (v : PersistentVolume),
      FindByAccessModesAndStorageCapacity store modes qty = .ok (some v) → v.claimRef = none := by
    intro modes qty v h
    unfold FindByAccessModesAndStorageCapacity at h
    rcases Find_some_mem _ _ _ _ h with ⟨l, _, _, hpred⟩
    exact (filterBoundVolumes_true_unbound _ _ hpred).2
  exact ⟨key, fun claim v h => key claim.accessModes (claim.requestStorage.getD 0) v h⟩

/-- Witness for C2: on a store holding the unbound 5-capacity volume, both
operations return it, and the theorem yields that its claim reference is
nil. -/
theorem C2_witness :
    FindByAccessModesAndStorageCapacity [StoreObject.pv vU5] rwoModes 3 = .ok (some vU5) ∧
    FindBestMatchForClaim [StoreObject.pv vU5] ⟨rwoModes, some 3⟩ = .ok (some vU5) ∧
    vU5.claimRef = none :=
  ⟨rfl, rfl, (C2_bound_volumes_never_returned [StoreObject.pv vU5]).1 rwoModes 3 vU5 rfl⟩

/-- C4: `Find` returns nil with no error whenever its match predicate holds
for no element of the ordered candidate list, including the case of an
empty candidate list. -/
theorem C4_no_match_is_nil_not_error (store : List StoreObject) (pv : PersistentVolume)
    (matchPredicate : PersistentVolume → PersistentVolume → Bool)
    (volumes : List PersistentVolume)
    (hl : ListByAccessModes store pv.accessModes = .ok volumes)
    (hfalse : ∀ v ∈ volumes, matchPredicate pv v = false) :
    Find store pv matchPredicate = .ok none := by
  unfold Find
  rw [hl]
  dsimp only
  rcases sortSearchGo_spec volumes.length
      (fun k => matchPredicate pv (volumes.getD k default)) with hs | ⟨hs1, hs2⟩
  · rw [dif_neg (by omega)]
  · exfalso
    have hmem := getD_mem volumes _ hs1
    have hf := hfalse _ hmem
    rw [hf] at hs2
    exact Bool.noConfusion hs2

/-- Witness for C4: the bound 5-capacity volume shares the probe's
signature but fails `filterBoundVolumes`, so `Find` over the non-empty
candidate list returns nil without error. -/
theorem C4_witness :
    Find [StoreObject.pv vB5] (probeVolume rwoModes) filterBoundVolumes = .ok none :=
  C4_no_match_is_nil_not_error [StoreObject.pv vB5] (probeVolume rwoModes)
    filterBoundVolumes [vB5] rfl (by decide)

/-- C7: the derived-index function succeeds, returning the access-mode
signature, on every persistent volume, and returns an error on every
object that is not a persistent volume; the two cases are exhaustive. -/
theorem C7_index_func_errors_exactly_on_non_volumes :
    (∀ v : PersistentVolume,
        accessModesIndexFunc (StoreObject.pv v) = .ok (getAccessModesAsString v.accessModes)) ∧
    (∀ descr : String,
        accessModesIndexFunc (StoreObject.other descr) =
          .error ( "object is not a persistent volume: " ++ descr)) :=
  ⟨fun _ => rfl, fun _ => rfl⟩

/-- C8: `ListByAccessModes` performs no bound-volume filtering: every
stored volume whose signature equals the requested one appears in the
returned sequence, with no condition on its claim reference. -/
theorem C8_listing_keeps_bound_volumes (store : List StoreObject) (modes : List AccessModeType)
    (v : PersistentVolume) (hmem : StoreObject.pv v ∈ store)
    (hsig : getAccessModesAsString v.accessModes = getAccessModesAsString modes)
    (l : List PersistentVolume) (hok : ListByAccessModes store modes = .ok l) :
    v ∈ l := by
  rcases (ListByAccessModes_ok_iff store modes l).mp hok with ⟨cands, hcoll, rfl⟩
  exact (sortGo_mem _ _ _).mpr (collectMatching_complete _ store cands hcoll v hmem hsig)

/-- Witness for C8: the bound 5-capacity volume is listed despite its
claim reference being set. -/
theorem C8_witness :
    ListByAccessModes [StoreObject.pv vB5] rwoModes = .ok [vB5] ∧
    vB5.claimRef.isSome = true ∧ vB5 ∈ [vB5] :=
  ⟨rfl, rfl, C8_listing_keeps_bound_volumes [StoreObject.pv vB5] rwoModes vB5
    (by decide) rfl [vB5] rfl⟩

/-- C10: none of the four query operations changes the underlying store:
in their state-passing forms the store component of the result is the
store that was passed in. -/
theorem C10_queries_leave_store_unchanged (store : List StoreObject)
    (modes : List AccessModeType) (pv : PersistentVolume)
    (matchPredicate : PersistentVolume → PersistentVolume → Bool)
    (qty : Int) (claim : PersistentVolumeClaim) :
    (ListByAccessModesOp store modes).2 = store ∧
    (FindOp store pv matchPredicate).2 = store ∧
    (FindByAccessModesAndStorageCapacityOp store modes qty).2 = store ∧
    (FindBestMatchForClaimOp store claim).2 = store :=
  ⟨rfl, rfl, rfl, rfl⟩

/-- C5: matching is by exact signature equality, not superset containment:
for a claim requesting `{ReadWriteOnce}`, a volume whose mode set is
`{ReadWriteOnce, ReadOnlyMany}` (a different signature) is never returned
by `ListByAccessModes`, `Find`, `FindByAccessModesAndStorageCapacity` or
`FindBestMatchForClaim`. -/
theorem C5_exact_signature_no_superset (store : List StoreObject) (v : PersistentVolume)
    (hv : v.accessModes = [AccessModeType.ReadWriteOnce, AccessModeType.ReadOnlyMany]) :
    (∀ l, ListByAccessModes store rwoModes = .ok l → v ∉ l) ∧
    (∀ (probe : PersistentVolume) (matchPredicate : PersistentVolume → PersistentVolume → Bool)
        (r : PersistentVolume), probe.accessModes = rwoModes →
        Find store probe matchPredicate = .ok (some r) → r ≠ v) ∧
    (∀ (qty : Int) (r : PersistentVolume),
        FindByAccessModesAndStorageCapacity store rwoModes qty = .ok (some r) → r ≠ v) ∧
    (∀ (claim : PersistentVolumeClaim) (r : PersistentVolume), claim.accessModes = rwoModes →
        FindBestMatchForClaim store claim = .ok (some r) → r ≠ v) := by
  have hsig : getAccessModesAsString v.accessModes ≠ getAccessModesAsString rwoModes := by
    rw [hv]
    decide
  have part1 : ∀ l, ListByAccessModes store rwoModes = .ok l → v ∉ l := by
    intro l hok hmem
    rcases (ListByAccessModes_ok_iff store rwoModes l).mp hok with ⟨cands, hcoll, rfl⟩
    exact hsig (collectMatching_mem_sig _ store cands hcoll v ((sortGo_mem _ _ _).mp hmem))
  have part2 : ∀ (probe : PersistentVolume)
      (matchPredicate : PersistentVolume → PersistentVolume → Bool)
      (r : PersistentVolume), probe.accessModes = rwoModes →
      Find store probe matchPredicate = .ok (some r) → r ≠ v := by
    intro probe matchPredicate r hpm h hrv
    rcases Find_some_mem store probe matchPredicate r h with ⟨l, hl, hmem, _⟩
    rw [hpm] at hl
    subst hrv
    exact part1 l hl hmem
  refine ⟨part1, part2, ?_, ?_⟩
  · intro qty r h
    exact part2 _ filterBoundVolumes r rfl h
  · intro claim r hcm h
    unfold FindBestMatchForClaim FindByAccessModesAndStorageCapacity at h
    refine part2 _ filterBoundVolumes r ?_ h
    exact hcm

/-- Witness for C5: a store holding only the superset-capability volume
yields an empty listing for the `{ReadWriteOnce}` request, and the theorem
yields that the volume is not among the (no) results. -/
theorem C5_witness :
    ListByAccessModes [StoreObject.pv vSuperset] rwoModes = .ok [] ∧
    vSuperset ∉ ([] : List PersistentVolume) :=
  ⟨rfl, (C5_exact_signature_no_superset [StoreObject.pv vSuperset] vSuperset rfl).1 [] rfl⟩

/-- C1 (code bug): evaluation at the failing input.  The store holds the
unbound 10-capacity volume followed by the bound 5-capacity volume, both
with signature `RWO`; the claim requests 8.  The unbound volume matches
the claim's signature, is unbound, and has enough capacity, yet
`FindBestMatchForClaim` returns nil: the bound volume sorts after the
unbound one (the comparator never moves bound volumes), which makes the
binary-search predicate non-monotone, so the search misses the fit.  The
last two conjuncts evaluate the example scenarios from the claim, which do
hold on all-unbound partitions. -/
theorem C1_eval_bound_volume_defeats_search :
    FindBestMatchForClaim [StoreObject.pv vU10, StoreObject.pv vB5] ⟨rwoModes, some 8⟩ =
      .ok none ∧
    StoreObject.pv vU10 ∈ [StoreObject.pv vU10, StoreObject.pv vB5] ∧
    vU10.claimRef = none ∧
    getAccessModesAsString vU10.accessModes = getAccessModesAsString rwoModes ∧
    (8 : Int) ≤ storageValue vU10 ∧
    FindBestMatchForClaim [StoreObject.pv vU5, StoreObject.pv vU10] ⟨rwoModes, some 8⟩ =
      .ok (some vU10) ∧
    FindBestMatchForClaim [StoreObject.pv vU5, StoreObject.pv vU10] ⟨rwoModes, some 3⟩ =
      .ok (some vU5) :=
  ⟨rfl, by decide, rfl, rfl, by decide, rfl, rfl⟩

/-- C3 (code bug): evaluation at the failing input.  With store order
`[unbound 10, bound 0, unbound 5]`, the comparator returns false on every
adjacent pair (a bound left argument is never "less", and 5 ≤ 0 fails), so
insertion sort moves nothing and `ListByAccessModes` returns the sequence
unsorted: the unbound volumes appear with capacities 10 before 5. -/
theorem C3_eval_bound_volume_blocks_sort :
    ListByAccessModes [StoreObject.pv vU10, StoreObject.pv vB0, StoreObject.pv vU5] rwoModes =
      .ok [vU10, vB0, vU5] ∧
    vU10.claimRef = none ∧ vU5.claimRef = none ∧
    ¬ (storageValue vU10 ≤ storageValue vU5) :=
  ⟨rfl, rfl, rfl, by decide⟩

/-- C6 (counterexample): the sort is not stable.  Two distinct unbound
volumes of equal capacity arrive from the store as `[vU5, vE5]` and
`ListByAccessModes` returns them as `[vE5, vU5]`: their relative order is
not preserved, because the non-strict comparator reports `5 ≤ 5` and
insertion sort therefore swaps the equal pair. -/
theorem C6_counterexample_equal_capacities_reordered :
    collectMatching (getAccessModesAsString rwoModes)
        [StoreObject.pv vU5, StoreObject.pv vE5] = .ok [vU5, vE5] ∧
    ListByAccessModes [StoreObject.pv vU5, StoreObject.pv vE5] rwoModes = .ok [vE5, vU5] ∧
    vU5 ≠ vE5 ∧
    storageValue vU5 = storageValue vE5 ∧
    vU5.claimRef = none ∧ vE5.claimRef = none :=
  ⟨rfl, rfl, by decide, rfl, rfl, rfl⟩

/-- C6 (amended): the ordering is a deterministic function of the candidate
sequence but is anti-stable on equal keys: for every capacity `c` and any
two unbound equal-capacity volumes, `ListByAccessModes` returns the
two-volume partition in reversed order. -/
theorem C6_amended_equal_capacities_swap (c : Int) (n1 n2 : String) :
    ListByAccessModes
        [StoreObject.pv ⟨n1, rwoModes, some c, none⟩, StoreObject.pv ⟨n2, rwoModes, some c, none⟩]
        rwoModes =
      .ok [⟨n2, rwoModes, some c, none⟩, ⟨n1, rwoModes, some c, none⟩] := by
  simp [ListByAccessModes, indexStore, accessModesIndexFunc, probeVolume, collectMatching,
    Except.map, sortGo, maxDepthGo, depthLoopGo, quickSortGo, insertionSortGo,
    insertionSortOuter, insertionSortInner, lessIdx, swapL, byCapacityLess,
    matchStorageCapacity, storageValue]

theorem Find_all_true (store : List StoreObject) (pv : PersistentVolume)
    (matchPredicate : PersistentVolume → PersistentVolume → Bool)
    (volumes : List PersistentVolume)
    (hl : ListByAccessModes store pv.accessModes = .ok volumes)
    (hall : ∀ v ∈ volumes, matchPredicate pv v = true) :
    Find store pv matchPredicate = .ok volumes.head? := by
  unfold Find
  rw [hl]
  dsimp only
  have hs : sortSearchGo volumes.length
      (fun k => matchPredicate pv (volumes.getD k default)) = 0 :=
    sortSearchGo_all_true _ _ fun k hk => hall _ (getD_mem volumes k hk)
  cases volumes with
  | nil =>
    rw [dif_neg (by simp)]
    rfl
  | cons x xs =>
    simp only [hs]
    rw [dif_pos (by simp)]
    rfl

/-- C9 (counterexample): two scenarios refuting "returns the first unbound
volume of the sorted matching partition, if any" for a claim with no
storage request.  First, with partition `[unbound 5, bound 0, bound 1]`
(which the sort leaves in place), the binary search probes only the two
bound positions and returns nil even though the sorted partition starts
with an unbound volume.  Second, a single unbound volume of negative
capacity is also missed, because the zero request is not `≤` its size. -/
theorem C9_counterexample_first_unbound_missed :
    (FindBestMatchForClaim [StoreObject.pv vU5, StoreObject.pv vB0, StoreObject.pv vB1]
        ⟨rwoModes, none⟩ = .ok none ∧
      sortGo byCapacityLess [vU5, vB0, vB1] = [vU5, vB0, vB1] ∧
      vU5.claimRef = none) ∧
    (FindBestMatchForClaim [StoreObject.pv vNeg] ⟨rwoModes, none⟩ = .ok none ∧
      sortGo byCapacityLess [vNeg] = [vNeg] ∧
      vNeg.claimRef = none) :=
  ⟨⟨rfl, rfl, rfl⟩, ⟨rfl, rfl, rfl⟩⟩

/-- C9 (amended): a volume whose capacity map has no storage entry is
compared as size exactly 0, without error (second conjunct); and
`FindBestMatchForClaim` on a claim with no storage request succeeds and
returns the first volume of the sorted matching partition, if any,
provided every volume of the partition is unbound and of non-negative
size (first conjunct). -/
theorem C9_amended_zero_request (store : List StoreObject) (claim : PersistentVolumeClaim)
    (cands : List PersistentVolume)
    (hreq : claim.requestStorage = none)
    (hok : collectMatching (getAccessModesAsString claim.accessModes) store = .ok cands)
    (hunbound : ∀ v ∈ cands, v.claimRef = none)
    (hnonneg : ∀ v ∈ cands, 0 ≤ storageValue v) :
    FindBestMatchForClaim store claim = .ok ((sortGo byCapacityLess cands).head?) ∧
    (∀ pvA pvB : PersistentVolume, pvA.capacity = none → pvA.claimRef = none →
        matchStorageCapacity pvA pvB = decide (0 ≤ storageValue pvB)) := by
  constructor
  · have hl : ListByAccessModes store claim.accessModes = .ok (sortGo byCapacityLess cands) :=
      (ListByAccessModes_ok_iff store claim.accessModes _).mpr ⟨cands, hok, rfl⟩
    have hall : ∀ v ∈ sortGo byCapacityLess cands,
        filterBoundVolumes
          { name := "", accessModes := claim.accessModes,
            capacity := some (claim.requestStorage.getD 0), claimRef := none } v = true := by
      intro v hv
      have hvc : v ∈ cands := (sortGo_mem _ _ _).mp hv
      have h1 := hunbound v hvc
      have h2 := hnonneg v hvc
      simp only [filterBoundVolumes, matchStorageCapacity, storageValue, h1, hreq,
        Option.isSome_none, Bool.or_self, Bool.false_eq_true, if_false, Option.getD_none,
        Option.getD_some]
      exact decide_eq_true h2
    exact Find_all_true store _ filterBoundVolumes (sortGo byCapacityLess cands) hl hall
  · intro pvA pvB hcap hcr
    unfold matchStorageCapacity storageValue
    rw [hcap, hcr]
    rfl

/-- Witness for C9 (amended): an all-unbound partition holding a volume
with no storage entry and the 5-capacity volume; the claim with no storage
request receives the first volume of the sorted partition, the one of
size 0. -/
theorem C9_witness :
    FindBestMatchForClaim [StoreObject.pv vNoCap, StoreObject.pv vU5] ⟨rwoModes, none⟩ =
      .ok (some vNoCap) :=
  ((C9_amended_zero_request [StoreObject.pv vNoCap, StoreObject.pv vU5] ⟨rwoModes, none⟩
      [vNoCap, vU5] rfl rfl (by decide) (by decide)).1).trans rfl

end VolumeClaimBinder
